import Mathlib

/-!
Shallow embedding of the SSE2 selector-dispatch core of `src/x86/sse2.rs`:
the byte shifts `_mm_slli_si128` / `_mm_srli_si128` (and their `bslli` /
`bsrli` aliases), the shuffles `_mm_shuffle_epi32`, `_mm_shufflehi_epi16`,
`_mm_shufflelo_epi16`, and the masked lane access pair `_mm_extract_epi16` /
`_mm_insert_epi16`.

Vectors are modelled as functions from lane index to lane value (`Fin n → Int`);
machine-integer casts are modelled with explicit `% 2^w` arithmetic on `Int`.
-/

/-- `x as u32` applied to an `i32` value: two's-complement reduction mod 2^32. -/
def toU32 (x : Int) : Nat := (x % 4294967296).toNat

/-- `(x & 0xFF) as u8` applied to an `i32` value: the low byte, i.e. x mod 256
(bitwise AND with 0xFF on a two's-complement integer). -/
def lowByte (x : Int) : Nat := (x % 256).toNat

/-- `x as i16` applied to an `i32` value: two's-complement wrap into
[-32768, 32768). -/
def toI16 (x : Int) : Int := (x + 32768) % 65536 - 32768

/-- `__m128i`: a 128-bit vector viewed as 16 byte lanes (lane 0 is lowest). -/
abbrev M128i := Fin 16 → Int

/-- `i32x4`: four 32-bit integer lanes. -/
abbrev I32x4 := Fin 4 → Int

/-- `i16x8`: eight 16-bit integer lanes. -/
abbrev I16x8 := Fin 8 → Int

/-- Modelled from the spec: `broadcast(x)` of the Lane Vector Model
(`__m128i::splat`, defined outside `src/`) — every lane equal to `x`. -/
def splat128 (x : Int) : M128i := fun _ => x

/-- Lane `j` of the concatenation of two `n`-lane vectors: indices `0..n-1`
name lanes of the first input, `n..2n-1` lanes of the second.  (The default 0
branch is unreachable for the index arrays used by this file, which are all
below `2n`.) -/
def sel2 {n : Nat} (x y : Fin n → Int) (j : Nat) : Int :=
  if h : j < n then x ⟨j, h⟩
  else if h2 : j - n < n then y ⟨j - n, h2⟩
  else 0

/-- Modelled from the spec: the raw fixed-pattern permutation primitive
(`simd_shuffle16`, a compiler intrinsic): result lane `i` is lane `idx i` of
the concatenation of the two inputs. -/
def simd_shuffle16 (x y : M128i) (idx : Fin 16 → Nat) : M128i :=
  fun i => sel2 x y (idx i)

/-- Modelled from the spec: the 8-lane permutation primitive `simd_shuffle8`. -/
def simd_shuffle8 (x y : I16x8) (idx : Fin 8 → Nat) : I16x8 :=
  fun i => sel2 x y (idx i)

/-- Modelled from the spec: the 4-lane permutation primitive `simd_shuffle4`. -/
def simd_shuffle4 (x y : I32x4) (idx : Fin 4 → Nat) : I32x4 :=
  fun i => sel2 x y (idx i)

/-- Modelled from the spec: `extract(v, i)` of the Lane Vector Model
(`i16x8::extract`, defined outside `src/`): lane `i` of `v`, with
precondition `i < 8` honoured by every caller via masking. -/
def extract (v : I16x8) (j : Nat) : Int :=
  if h : j < 8 then v ⟨j, h⟩ else 0

/-- Modelled from the spec: `replace(v, i, x)` of the Lane Vector Model
(`i16x8::replace`, defined outside `src/`): `v` with lane `i` set to `x`. -/
def replace (v : I16x8) (j : Nat) (x : Int) : I16x8 :=
  fun i => if i.val = j then x else v i

/-- The index array of `_mm_slli_si128`'s `shuffle!` macro at a given shift:
entry `i` is `sub(16 + i, shift)` (no `u32` underflow since shift ≤ 16). -/
def slliIdx (shift : Nat) : Fin 16 → Nat := fun i => 16 + i.val - shift

/-- The index array of `_mm_srli_si128`'s `shuffle!` macro at a given shift:
entry `i` is `add(i, shift)`. -/
def srliIdx (shift : Nat) : Fin 16 → Nat := fun i => i.val + shift

/-- `_mm_slli_si128`: shift `a` left by `imm8` bytes shifting in zeros.
The source reinterprets `imm8` as `u32` and matches it against 0..15 with a
default arm for every other value. -/
def _mm_slli_si128 (a : M128i) (imm8 : Int) : M128i :=
  let zero := splat128 0
  match toU32 imm8 with
  | 0 => simd_shuffle16 zero a (slliIdx 0)
  | 1 => simd_shuffle16 zero a (slliIdx 1)
  | 2 => simd_shuffle16 zero a (slliIdx 2)
  | 3 => simd_shuffle16 zero a (slliIdx 3)
  | 4 => simd_shuffle16 zero a (slliIdx 4)
  | 5 => simd_shuffle16 zero a (slliIdx 5)
  | 6 => simd_shuffle16 zero a (slliIdx 6)
  | 7 => simd_shuffle16 zero a (slliIdx 7)
  | 8 => simd_shuffle16 zero a (slliIdx 8)
  | 9 => simd_shuffle16 zero a (slliIdx 9)
  | 10 => simd_shuffle16 zero a (slliIdx 10)
  | 11 => simd_shuffle16 zero a (slliIdx 11)
  | 12 => simd_shuffle16 zero a (slliIdx 12)
  | 13 => simd_shuffle16 zero a (slliIdx 13)
  | 14 => simd_shuffle16 zero a (slliIdx 14)
  | 15 => simd_shuffle16 zero a (slliIdx 15)
  | _ => simd_shuffle16 zero a (slliIdx 16)

/-- `_mm_srli_si128`: shift `a` right by `imm8` bytes shifting in zeros. -/
def _mm_srli_si128 (a : M128i) (imm8 : Int) : M128i :=
  let zero := splat128 0
  match toU32 imm8 with
  | 0 => simd_shuffle16 a zero (srliIdx 0)
  | 1 => simd_shuffle16 a zero (srliIdx 1)
  | 2 => simd_shuffle16 a zero (srliIdx 2)
  | 3 => simd_shuffle16 a zero (srliIdx 3)
  | 4 => simd_shuffle16 a zero (srliIdx 4)
  | 5 => simd_shuffle16 a zero (srliIdx 5)
  | 6 => simd_shuffle16 a zero (srliIdx 6)
  | 7 => simd_shuffle16 a zero (srliIdx 7)
  | 8 => simd_shuffle16 a zero (srliIdx 8)
  | 9 => simd_shuffle16 a zero (srliIdx 9)
  | 10 => simd_shuffle16 a zero (srliIdx 10)
  | 11 => simd_shuffle16 a zero (srliIdx 11)
  | 12 => simd_shuffle16 a zero (srliIdx 12)
  | 13 => simd_shuffle16 a zero (srliIdx 13)
  | 14 => simd_shuffle16 a zero (srliIdx 14)
  | 15 => simd_shuffle16 a zero (srliIdx 15)
  | _ => simd_shuffle16 a zero (srliIdx 16)

/-- `_mm_bslli_si128`: alias wrapping `_mm_slli_si128`. -/
def _mm_bslli_si128 (a : M128i) (imm8 : Int) : M128i :=
  _mm_slli_si128 a imm8

/-- `_mm_bsrli_si128`: alias wrapping `_mm_srli_si128`. -/
def _mm_bsrli_si128 (a : M128i) (imm8 : Int) : M128i :=
  _mm_srli_si128 a imm8

/-- A 4-entry index array written out elementwise, mirroring the literal
arrays passed to the permutation primitive in the source. -/
def vec4 {α : Type} (e0 e1 e2 e3 : α) : Fin 4 → α := fun i =>
  match i with
  | ⟨0, _⟩ => e0
  | ⟨1, _⟩ => e1
  | ⟨2, _⟩ => e2
  | ⟨3, _⟩ => e3

/-- An 8-entry index array written out elementwise. -/
def vec8 {α : Type} (e0 e1 e2 e3 e4 e5 e6 e7 : α) : Fin 8 → α := fun i =>
  match i with
  | ⟨0, _⟩ => e0
  | ⟨1, _⟩ => e1
  | ⟨2, _⟩ => e2
  | ⟨3, _⟩ => e3
  | ⟨4, _⟩ => e4
  | ⟨5, _⟩ => e5
  | ⟨6, _⟩ => e6
  | ⟨7, _⟩ => e7

/-- The `shuffle_x67!` layer shared (up to the final `shuffle_done!` body) by
the three shuffle functions: a 4-way match on `(imm8 >> 6) & 0b11` whose arm
for value `v` supplies the literal `v` as fourth selected index. -/
def dispatch_x67 {X : Type} (c : Nat) (done : Nat → Nat → Nat → Nat → X)
    (x01 x23 x45 : Nat) : X :=
  match (c >>> 6) % 4 with
  | 0 => done x01 x23 x45 0
  | 1 => done x01 x23 x45 1
  | 2 => done x01 x23 x45 2
  | _ => done x01 x23 x45 3

/-- The `shuffle_x45!` layer: 4-way match on `(imm8 >> 4) & 0b11`. -/
def dispatch_x45 {X : Type} (c : Nat) (done : Nat → Nat → Nat → Nat → X)
    (x01 x23 : Nat) : X :=
  match (c >>> 4) % 4 with
  | 0 => dispatch_x67 c done x01 x23 0
  | 1 => dispatch_x67 c done x01 x23 1
  | 2 => dispatch_x67 c done x01 x23 2
  | _ => dispatch_x67 c done x01 x23 3

/-- The `shuffle_x23!` layer: 4-way match on `(imm8 >> 2) & 0b11`. -/
def dispatch_x23 {X : Type} (c : Nat) (done : Nat → Nat → Nat → Nat → X)
    (x01 : Nat) : X :=
  match (c >>> 2) % 4 with
  | 0 => dispatch_x45 c done x01 0
  | 1 => dispatch_x45 c done x01 1
  | 2 => dispatch_x45 c done x01 2
  | _ => dispatch_x45 c done x01 3

/-- The outermost layer of the nested 4-way decision tree: match on
`imm8 & 0b11`, then descend through the `x23`, `x45`, `x67` layers until the
fully concrete index quadruple reaches `done` (the `shuffle_done!` body). -/
def dispatch2bit {X : Type} (c : Nat) (done : Nat → Nat → Nat → Nat → X) : X :=
  match c % 4 with
  | 0 => dispatch_x23 c done 0
  | 1 => dispatch_x23 c done 1
  | 2 => dispatch_x23 c done 2
  | _ => dispatch_x23 c done 3

/-- `_mm_shuffle_epi32`: shuffle the four 32-bit lanes of `a` by the control
byte `(imm8 & 0xFF) as u8`, via the nested 4-way decision tree whose
`shuffle_done!` is `simd_shuffle4(a, a, [x01, x23, x45, x67])`. -/
def _mm_shuffle_epi32 (a : I32x4) (imm8 : Int) : I32x4 :=
  dispatch2bit (lowByte imm8) (fun x01 x23 x45 x67 =>
    simd_shuffle4 a a (vec4 x01 x23 x45 x67))

/-- `_mm_shufflehi_epi16`: shuffle the high four 16-bit lanes of `a` by the
control byte, copying the low half; `shuffle_done!` is
`simd_shuffle8(a, a, [0, 1, 2, 3, add4 x01, add4 x23, add4 x45, add4 x67])`. -/
def _mm_shufflehi_epi16 (a : I16x8) (imm8 : Int) : I16x8 :=
  dispatch2bit (lowByte imm8) (fun x01 x23 x45 x67 =>
    simd_shuffle8 a a (vec8 0 1 2 3 (x01 + 4) (x23 + 4) (x45 + 4) (x67 + 4)))

/-- `_mm_shufflelo_epi16`: shuffle the low four 16-bit lanes of `a` by the
control byte, copying the high half; `shuffle_done!` is
`simd_shuffle8(a, a, [x01, x23, x45, x67, 4, 5, 6, 7])`. -/
def _mm_shufflelo_epi16 (a : I16x8) (imm8 : Int) : I16x8 :=
  dispatch2bit (lowByte imm8) (fun x01 x23 x45 x67 =>
    simd_shuffle8 a a (vec8 x01 x23 x45 x67 4 5 6 7))

/-- `_mm_extract_epi16`: `a.extract(imm8 as u32 & 0b111) as i32` — mask the
index to the low three bits, read that lane, sign-extend `i16` to `i32`
(value-preserving, hence the identity on the modelled lane value). -/
def _mm_extract_epi16 (a : I16x8) (imm8 : Int) : Int :=
  extract a (toU32 imm8 % 8)

/-- `_mm_insert_epi16`: `a.replace(imm8 as u32 & 0b111, i as i16)`. -/
def _mm_insert_epi16 (a : I16x8) (i : Int) (imm8 : Int) : I16x8 :=
  replace a (toU32 imm8 % 8) (toI16 i)

/-- The byte vector (1, 2, ..., 16) of the spec's concrete scenarios. -/
def bytes1to16 : M128i := fun i => (i.val : Int) + 1

/-- The byte vector (0, 1, ..., 15). -/
def bytes0to15 : M128i := fun i => (i.val : Int)

/-- The all-zero 128-bit vector. -/
def zero128 : M128i := splat128 0

theorem sel2_lt {n : Nat} (x y : Fin n → Int) (j : Nat) (h : j < n) :
    sel2 x y j = x ⟨j, h⟩ := dif_pos h

theorem sel2_ge {n : Nat} (x y : Fin n → Int) (j : Nat) (h1 : n ≤ j)
    (h2 : j - n < n) : sel2 x y j = y ⟨j - n, h2⟩ := by
  unfold sel2
  rw [dif_neg (by omega), dif_pos h2]

theorem slli_norm (a : M128i) (imm8 : Int) :
    _mm_slli_si128 a imm8 =
      simd_shuffle16 (splat128 0) a (slliIdx (min (toU32 imm8) 16)) := by
  unfold _mm_slli_si128
  set u := toU32 imm8 with hu
  by_cases h : u < 16
  · interval_cases u <;> rfl
  · obtain ⟨k, hk⟩ : ∃ k, u = k + 16 := ⟨u - 16, by omega⟩
    rw [hk, Nat.min_eq_right (by omega)]
    rfl

theorem srli_norm (a : M128i) (imm8 : Int) :
    _mm_srli_si128 a imm8 =
      simd_shuffle16 a (splat128 0) (srliIdx (min (toU32 imm8) 16)) := by
  unfold _mm_srli_si128
  set u := toU32 imm8 with hu
  by_cases h : u < 16
  · interval_cases u <;> rfl
  · obtain ⟨k, hk⟩ : ∃ k, u = k + 16 := ⟨u - 16, by omega⟩
    rw [hk, Nat.min_eq_right (by omega)]
    rfl

theorem slli_lane (a : M128i) (imm8 : Int) (i : Fin 16) :
    _mm_slli_si128 a imm8 i =
      if h : i.val < min (toU32 imm8) 16 then 0
      else a ⟨i.val - min (toU32 imm8) 16, by omega⟩ := by
  rw [slli_norm]
  set s := min (toU32 imm8) 16 with hs
  have hs16 : s ≤ 16 := by omega
  show sel2 (splat128 0) a (slliIdx s i) = _
  by_cases hi : i.val < s
  · rw [dif_pos hi, sel2_lt (splat128 0) a (slliIdx s i) (by simp [slliIdx]; omega)]
    rfl
  · rw [dif_neg hi,
      sel2_ge (splat128 0) a (slliIdx s i) (by simp [slliIdx]; omega)
        (by simp [slliIdx]; omega)]
    congr 1
    exact Fin.ext (by simp [slliIdx]; omega)

theorem srli_lane (a : M128i) (imm8 : Int) (i : Fin 16) :
    _mm_srli_si128 a imm8 i =
      if h : i.val + min (toU32 imm8) 16 < 16 then a ⟨i.val + min (toU32 imm8) 16, h⟩
      else 0 := by
  rw [srli_norm]
  set s := min (toU32 imm8) 16 with hs
  have hs16 : s ≤ 16 := by omega
  show sel2 a (splat128 0) (srliIdx s i) = _
  by_cases hi : i.val + s < 16
  · rw [dif_pos hi, sel2_lt a (splat128 0) (srliIdx s i) (by simp [srliIdx]; omega)]
    rfl
  · rw [dif_neg hi,
      sel2_ge a (splat128 0) (srliIdx s i) (by simp [srliIdx]; omega)
        (by simp [srliIdx]; omega)]
    rfl

theorem dispatch_x67_eq {X : Type} (c : Nat) (done : Nat → Nat → Nat → Nat → X)
    (x01 x23 x45 : Nat) :
    dispatch_x67 c done x01 x23 x45 = done x01 x23 x45 ((c >>> 6) % 4) := by
  unfold dispatch_x67
  have h : (c >>> 6) % 4 = 0 ∨ (c >>> 6) % 4 = 1 ∨ (c >>> 6) % 4 = 2 ∨
      (c >>> 6) % 4 = 3 := by omega
  rcases h with h | h | h | h <;> rw [h]

theorem dispatch_x45_eq {X : Type} (c : Nat) (done : Nat → Nat → Nat → Nat → X)
    (x01 x23 : Nat) :
    dispatch_x45 c done x01 x23 = dispatch_x67 c done x01 x23 ((c >>> 4) % 4) := by
  unfold dispatch_x45
  have h : (c >>> 4) % 4 = 0 ∨ (c >>> 4) % 4 = 1 ∨ (c >>> 4) % 4 = 2 ∨
      (c >>> 4) % 4 = 3 := by omega
  rcases h with h | h | h | h <;> rw [h]

theorem dispatch_x23_eq {X : Type} (c : Nat) (done : Nat → Nat → Nat → Nat → X)
    (x01 : Nat) :
    dispatch_x23 c done x01 = dispatch_x45 c done x01 ((c >>> 2) % 4) := by
  unfold dispatch_x23
  have h : (c >>> 2) % 4 = 0 ∨ (c >>> 2) % 4 = 1 ∨ (c >>> 2) % 4 = 2 ∨
      (c >>> 2) % 4 = 3 := by omega
  rcases h with h | h | h | h <;> rw [h]

theorem dispatch2bit_eq {X : Type} (c : Nat) (done : Nat → Nat → Nat → Nat → X) :
    dispatch2bit c done =
      done (c % 4) ((c >>> 2) % 4) ((c >>> 4) % 4) ((c >>> 6) % 4) := by
  unfold dispatch2bit
  have h : c % 4 = 0 ∨ c % 4 = 1 ∨ c % 4 = 2 ∨ c % 4 = 3 := by omega
  rcases h with h | h | h | h <;>
    rw [h] <;>
    · show dispatch_x23 c done _ = _
      rw [dispatch_x23_eq, dispatch_x45_eq, dispatch_x67_eq]

theorem shuffle_epi32_lane (a : I32x4) (imm8 : Int) (i : Fin 4) :
    _mm_shuffle_epi32 a imm8 i =
      a ⟨(lowByte imm8 >>> (2 * i.val)) % 4, by omega⟩ := by
  unfold _mm_shuffle_epi32
  rw [dispatch2bit_eq]
  fin_cases i
  · exact sel2_lt a a (lowByte imm8 % 4) (by omega)
  · exact sel2_lt a a ((lowByte imm8 >>> 2) % 4) (by omega)
  · exact sel2_lt a a ((lowByte imm8 >>> 4) % 4) (by omega)
  · exact sel2_lt a a ((lowByte imm8 >>> 6) % 4) (by omega)

theorem shufflehi_lo_lane (a : I16x8) (imm8 : Int) (i : Fin 8) (h : i.val < 4) :
    _mm_shufflehi_epi16 a imm8 i = a i := by
  unfold _mm_shufflehi_epi16
  rw [dispatch2bit_eq]
  fin_cases i
  · exact sel2_lt a a 0 (by omega)
  · exact sel2_lt a a 1 (by omega)
  · exact sel2_lt a a 2 (by omega)
  · exact sel2_lt a a 3 (by omega)
  · exact absurd h (by decide)
  · exact absurd h (by decide)
  · exact absurd h (by decide)
  · exact absurd h (by decide)

theorem shufflelo_hi_lane (a : I16x8) (imm8 : Int) (i : Fin 8) (h : 4 ≤ i.val) :
    _mm_shufflelo_epi16 a imm8 i = a i := by
  unfold _mm_shufflelo_epi16
  rw [dispatch2bit_eq]
  fin_cases i
  · exact absurd h (by decide)
  · exact absurd h (by decide)
  · exact absurd h (by decide)
  · exact absurd h (by decide)
  · exact sel2_lt a a 4 (by omega)
  · exact sel2_lt a a 5 (by omega)
  · exact sel2_lt a a 6 (by omega)
  · exact sel2_lt a a 7 (by omega)

theorem extract_lane (a : I16x8) (imm8 : Int) :
    _mm_extract_epi16 a imm8 = a ⟨(imm8 % 8).toNat, by omega⟩ := by
  unfold _mm_extract_epi16 extract
  have h : toU32 imm8 % 8 = (imm8 % 8).toNat := by unfold toU32; omega
  rw [dif_pos (by omega)]
  exact congrArg a (Fin.ext h)

/-- Concrete i16x8 vector (1, 2, 3, 4, 5, 6, 7, 8) used by witnesses. -/
def testVec8 : I16x8 := vec8 1 2 3 4 5 6 7 8

/-- Concrete i16x8 vector with a negative lane 0, used by witnesses. -/
def testVecNeg : I16x8 := vec8 (-5) 2 3 4 5 6 7 8

/-- C1: `_mm_shuffle_epi32` is determined by the four independent 2-bit fields
of the low byte of the control: destination lane `i` equals source lane
`(c >> (2*i)) & 3`; and control 0b00_01_01_11 applied to (5, 10, 15, 20)
yields (20, 10, 10, 5). -/
theorem claim_C1 :
    (∀ (a : I32x4) (c : Int) (i : Fin 4),
      _mm_shuffle_epi32 a c i = a ⟨(lowByte c >>> (2 * i.val)) % 4, by omega⟩) ∧
    _mm_shuffle_epi32 (vec4 5 10 15 20) 23 = vec4 20 10 10 5 := by
  constructor
  · exact fun a c i => shuffle_epi32_lane a c i
  · funext i
    fin_cases i <;> decide

/-- C2: for every `i32` distance that is negative or at least 16 (including
the most negative representable `i32`), both byte shifts return the all-zero
vector. -/
theorem claim_C2 (a : M128i) (d : Int)
    (hlo : -2147483648 ≤ d) (hhi : d < 2147483648) (hd : d < 0 ∨ 16 ≤ d) :
    _mm_slli_si128 a d = zero128 ∧ _mm_srli_si128 a d = zero128 := by
  have h16 : 16 ≤ toU32 d := by
    unfold toU32
    rcases hd with hd | hd <;> omega
  constructor
  · funext i
    have hi := i.isLt
    rw [slli_lane, dif_pos (by omega)]
    rfl
  · funext i
    have hi := i.isLt
    rw [srli_lane, dif_neg (by omega)]
    rfl

theorem claim_C2_witness :
    _mm_slli_si128 bytes1to16 (-2147483648) = zero128 ∧
    _mm_srli_si128 bytes1to16 (-2147483648) = zero128 :=
  claim_C2 bytes1to16 (-2147483648) (by norm_num) (by norm_num)
    (Or.inl (by norm_num))

/-- C3: for a shift distance k in [0, 15], `_mm_slli_si128` zero-fills the low
k bytes and moves byte j of the input to byte k + j; and left byte-shift of
(1, ..., 16) by 1 yields (0, 1, ..., 15). -/
theorem claim_C3 (a : M128i) (k : Int) (hk0 : 0 ≤ k) (hk15 : k ≤ 15) :
    ((∀ i : Fin 16, i.val < k.toNat → _mm_slli_si128 a k i = 0) ∧
     (∀ j : Nat, (hj : j < 16 - k.toNat) →
       _mm_slli_si128 a k ⟨k.toNat + j, by omega⟩ = a ⟨j, by omega⟩)) ∧
    _mm_slli_si128 bytes1to16 1 = bytes0to15 := by
  have hmin : min (toU32 k) 16 = k.toNat := by
    unfold toU32
    omega
  refine ⟨⟨fun i hi => ?_, fun j hj => ?_⟩, ?_⟩
  · rw [slli_lane, dif_pos (by omega)]
  · rw [slli_lane, dif_neg (by simp only [Fin.val_mk]; omega)]
    exact congrArg a (Fin.ext (by simp only [Fin.val_mk]; omega))
  · funext i
    fin_cases i <;> decide

theorem claim_C3_witness :
    (0 : Int) ≤ 1 ∧ (1 : Int) ≤ 15 ∧
    _mm_slli_si128 bytes1to16 1 ⟨0, by norm_num⟩ = 0 ∧
    _mm_slli_si128 bytes1to16 1 ⟨1 + 2, by norm_num⟩ = bytes1to16 ⟨2, by norm_num⟩ :=
  ⟨by norm_num, by norm_num,
    (claim_C3 bytes1to16 1 (by norm_num) (by norm_num)).1.1 ⟨0, by norm_num⟩
      (by norm_num),
    (claim_C3 bytes1to16 1 (by norm_num) (by norm_num)).1.2 2 (by norm_num)⟩

/-- C4 counterexample: at d = 1 and a = (1, ..., 16), the composite
`_mm_srli_si128(_mm_slli_si128(a, 1), 1)` does NOT reproduce the original
vector's high 15 bytes in place with the low byte zero — in fact its byte 0 is
1 (not 0) and its byte 15 is 0 (not 16). -/
theorem claim_C4_counterexample :
    ¬ ((∀ i : Fin 16, 1 ≤ i.val →
        _mm_srli_si128 (_mm_slli_si128 bytes1to16 1) 1 i = bytes1to16 i) ∧
       _mm_srli_si128 (_mm_slli_si128 bytes1to16 1) 1 ⟨0, by norm_num⟩ = 0) := by
  decide

/-- C4 amended: for d in [0, 15], left-shift-by-d followed by right-shift-by-d
reproduces the original vector's LOW (16−d) bytes in their original positions
with the HIGH d bytes now zero, and right-shift-by-d followed by
left-shift-by-d reproduces the HIGH (16−d) bytes in their original positions
with the LOW d bytes now zero (the two composites are swapped relative to the
claim). -/
theorem claim_C4_amended (a : M128i) (d : Int) (h0 : 0 ≤ d) (h15 : d ≤ 15) :
    (∀ i : Fin 16,
      (i.val < 16 - d.toNat → _mm_srli_si128 (_mm_slli_si128 a d) d i = a i) ∧
      (16 - d.toNat ≤ i.val → _mm_srli_si128 (_mm_slli_si128 a d) d i = 0)) ∧
    (∀ i : Fin 16,
      (d.toNat ≤ i.val → _mm_slli_si128 (_mm_srli_si128 a d) d i = a i) ∧
      (i.val < d.toNat → _mm_slli_si128 (_mm_srli_si128 a d) d i = 0)) := by
  have hmin : min (toU32 d) 16 = d.toNat := by
    unfold toU32
    omega
  constructor
  · intro i
    have hi := i.isLt
    constructor
    · intro h
      rw [srli_lane, dif_pos (by omega), slli_lane,
        dif_neg (by simp only [Fin.val_mk]; omega)]
      exact congrArg a (Fin.ext (by simp only [Fin.val_mk]; omega))
    · intro h
      rw [srli_lane, dif_neg (by omega)]
  · intro i
    have hi := i.isLt
    constructor
    · intro h
      rw [slli_lane, dif_neg (by omega), srli_lane,
        dif_pos (by simp only [Fin.val_mk]; omega)]
      exact congrArg a (Fin.ext (by simp only [Fin.val_mk]; omega))
    · intro h
      rw [slli_lane, dif_pos (by omega)]

theorem claim_C4_amended_witness :
    _mm_srli_si128 (_mm_slli_si128 bytes1to16 1) 1 ⟨0, by norm_num⟩ =
      bytes1to16 ⟨0, by norm_num⟩ ∧
    _mm_slli_si128 (_mm_srli_si128 bytes1to16 1) 1 ⟨0, by norm_num⟩ = 0 :=
  ⟨((claim_C4_amended bytes1to16 1 (by norm_num) (by norm_num)).1
      ⟨0, by norm_num⟩).1 (by norm_num),
   ((claim_C4_amended bytes1to16 1 (by norm_num) (by norm_num)).2
      ⟨0, by norm_num⟩).2 (by norm_num)⟩

/-- C5: for every control byte value in [0, 255], `_mm_shufflelo_epi16` leaves
lanes 4..7 identical to the input and `_mm_shufflehi_epi16` leaves lanes 0..3
identical to the input. -/
theorem claim_C5 (a : I16x8) (c : Int) (h0 : 0 ≤ c) (h255 : c ≤ 255) :
    (∀ i : Fin 8, 4 ≤ i.val → _mm_shufflelo_epi16 a c i = a i) ∧
    (∀ i : Fin 8, i.val < 4 → _mm_shufflehi_epi16 a c i = a i) :=
  ⟨fun i hi => shufflelo_hi_lane a c i hi, fun i hi => shufflehi_lo_lane a c i hi⟩

theorem claim_C5_witness :
    _mm_shufflelo_epi16 testVec8 170 ⟨5, by norm_num⟩ = testVec8 ⟨5, by norm_num⟩ ∧
    _mm_shufflehi_epi16 testVec8 170 ⟨2, by norm_num⟩ = testVec8 ⟨2, by norm_num⟩ :=
  ⟨(claim_C5 testVec8 170 (by norm_num) (by norm_num)).1 ⟨5, by norm_num⟩
      (by norm_num),
   (claim_C5 testVec8 170 (by norm_num) (by norm_num)).2 ⟨2, by norm_num⟩
      (by norm_num)⟩

/-- C6: for every `i32` index (negative and overlarge included),
`_mm_extract_epi16` returns the value of lane `imm8 & 7` — out-of-range
indices are defined by masking to the lane-count modulus, never by an error. -/
theorem claim_C6 (a : I16x8) (imm8 : Int)
    (hlo : -2147483648 ≤ imm8) (hhi : imm8 < 2147483648) :
    _mm_extract_epi16 a imm8 = a ⟨(imm8 % 8).toNat, by omega⟩ :=
  extract_lane a imm8

theorem claim_C6_witness : _mm_extract_epi16 testVec8 (-3) = 6 :=
  (claim_C6 testVec8 (-3) (by norm_num) (by norm_num)).trans (by decide)

/-- C7: the identity control byte 0xE4 (fields 0, 1, 2, 3 in the native field
order) leaves the vector unchanged under `_mm_shuffle_epi32`,
`_mm_shufflehi_epi16` and `_mm_shufflelo_epi16`. -/
theorem claim_C7 (a4 : I32x4) (a8 : I16x8) :
    _mm_shuffle_epi32 a4 228 = a4 ∧ _mm_shufflehi_epi16 a8 228 = a8 ∧
    _mm_shufflelo_epi16 a8 228 = a8 := by
  refine ⟨funext fun i => ?_, funext fun i => ?_, funext fun i => ?_⟩ <;>
    fin_cases i <;> rfl

/-- C8: the byte-shift aliases are extensionally equal to the operations they
wrap, for every vector and every `i32` distance. -/
theorem claim_C8 (a : M128i) (imm8 : Int) :
    _mm_bslli_si128 a imm8 = _mm_slli_si128 a imm8 ∧
    _mm_bsrli_si128 a imm8 = _mm_srli_si128 a imm8 :=
  ⟨rfl, rfl⟩

/-- C9: `_mm_insert_epi16` equals the input in every lane except lane
`imm8 & 7`, which holds `i` truncated to 16 bits; no other lane is modified
even for negative or overlarge `i32` indices. -/
theorem claim_C9 (a : I16x8) (i : Int) (imm8 : Int)
    (hlo : -2147483648 ≤ imm8) (hhi : imm8 < 2147483648) :
    (∀ j : Fin 8, j.val ≠ (imm8 % 8).toNat → _mm_insert_epi16 a i imm8 j = a j) ∧
    _mm_insert_epi16 a i imm8 ⟨(imm8 % 8).toNat, by omega⟩ = toI16 i := by
  have h : toU32 imm8 % 8 = (imm8 % 8).toNat := by
    unfold toU32
    omega
  constructor
  · intro j hj
    unfold _mm_insert_epi16 replace
    rw [if_neg (by omega)]
  · unfold _mm_insert_epi16 replace
    rw [if_pos (by simp only [Fin.val_mk]; omega)]

theorem claim_C9_witness :
    _mm_insert_epi16 testVec8 100000 (-7) ⟨1, by norm_num⟩ = toI16 100000 ∧
    _mm_insert_epi16 testVec8 100000 (-7) ⟨0, by norm_num⟩ =
      testVec8 ⟨0, by norm_num⟩ :=
  ⟨(claim_C9 testVec8 100000 (-7) (by norm_num) (by norm_num)).2,
   (claim_C9 testVec8 100000 (-7) (by norm_num) (by norm_num)).1
     ⟨0, by norm_num⟩ (by decide)⟩

/-- C10: for vectors whose lanes hold `i16` values, `_mm_extract_epi16`
returns the sign-extension of the selected 16-bit lane: the lane value itself,
negative when the lane is negative, and different from the zero-extended
16-bit pattern of a negative lane. -/
theorem claim_C10 (a : I16x8) (imm8 : Int)
    (hrange : ∀ j : Fin 8, -32768 ≤ a j ∧ a j < 32768)
    (hlo : -2147483648 ≤ imm8) (hhi : imm8 < 2147483648)
    (hneg : a ⟨(imm8 % 8).toNat, by omega⟩ < 0) :
    _mm_extract_epi16 a imm8 = a ⟨(imm8 % 8).toNat, by omega⟩ ∧
    _mm_extract_epi16 a imm8 < 0 ∧
    _mm_extract_epi16 a imm8 ≠ a ⟨(imm8 % 8).toNat, by omega⟩ % 65536 := by
  rw [extract_lane a imm8]
  refine ⟨rfl, hneg, ?_⟩
  have hr := hrange ⟨(imm8 % 8).toNat, by omega⟩
  omega

theorem claim_C10_witness :
    _mm_extract_epi16 testVecNeg 8 = testVecNeg ⟨((8 : Int) % 8).toNat, by decide⟩ ∧
    _mm_extract_epi16 testVecNeg 8 < 0 ∧
    _mm_extract_epi16 testVecNeg 8 ≠ testVecNeg ⟨((8 : Int) % 8).toNat, by decide⟩ % 65536 :=
  claim_C10 testVecNeg 8 (by decide) (by norm_num) (by norm_num) (by decide)
